import Mathlib

/-!
Verification of the track-filtering and playlist-assembly pipeline of
`streamlit_app.py` (Smart Spotify Playlist Generator).

The Python source works on duck-typed dictionaries; here each dictionary
shape is a structure whose optional keys are `Option` fields.  A saved-track
item may lack the `"track"` key entirely (`track = none`), carry a null
track (`track = some none`), or carry a track (`track = some (some t)`).
Python string operations are modelled on `String.data` (lists of
characters): `lower()` maps `Char.toLower`, `in` is contiguous-subsequence
search, `", ".join` is `List.intercalate`.  Numeric audio-feature values and
bounds are rationals (the code only compares them, never computes with
them).  A call that can raise is modelled in `Except Unit`; `Except.error ()`
stands for a raised exception (the exceptions the code lets escape carry no
pipeline data).
-/

/-! ## Python string primitives -/

/-- Python `s.lower()`, character by character. -/
def pyLower (s : String) : String := ⟨s.data.map Char.toLower⟩

/-- Whether `hay` starts with `needle` (helper for substring search). -/
def beginsWith : List Char → List Char → Bool
  | [], _ => true
  | _ :: _, [] => false
  | a :: as, b :: bs => a == b && beginsWith as bs

/-- Python `needle in hay` on strings: contiguous substring test
(`"" in s` is `True`). -/
def containsSeq (needle : List Char) : List Char → Bool
  | [] => beginsWith needle []
  | b :: bs => beginsWith needle (b :: bs) || containsSeq needle bs

/-- Python `needle in hay` lifted to `String`. -/
def pyIn (needle hay : String) : Bool := containsSeq needle.data hay.data

/-- Python `sep.join(parts)`. -/
def pyJoin (sep : String) (parts : List String) : String :=
  ⟨List.intercalate sep.data (parts.map String.data)⟩

/-- Line 76: `normalize_text(s)` is `(s or "").lower()`; the argument may be
`None` (modelled `none`). -/
def normalize_text (s : Option String) : String := pyLower (s.getD "")

/-! ## Data model (dictionary shapes used by `filter_tracks`) -/

/-- An artist dictionary; line 105 indexes `a["name"]` directly, so the
name is a required field. -/
structure Artist where
  name : String
deriving DecidableEq

/-- An album dictionary; `"name"` may be missing or null (line 107 uses
`.get("name", "")` and `normalize_text`). -/
structure Album where
  name : Option String
deriving DecidableEq

/-- A track dictionary. Every key read by `filter_tracks` is read with a
default, so each is optional here; `none` covers both a missing key and a
null value, which the source code never distinguishes for these fields. -/
structure Track where
  id : Option String
  name : Option String
  artists : Option (List Artist)
  album : Option Album
deriving DecidableEq

/-- A saved-track item. The outer `none` is a missing `"track"` key (line
101 `item["track"]` raises on it), `some none` a null track value. -/
structure SavedItem where
  track : Option (Option Track)
deriving DecidableEq

/-- An audio-features dictionary as returned per id by the lookup endpoint. -/
structure AudioFeatures where
  id : Option String
  tempo : Option Rat
  danceability : Option Rat
  valence : Option Rat
deriving DecidableEq

/-! ## Chunking (Python `range(0, len(l), 100)` with 100-slices) -/

/-- Structural worker for `chunks100`; the fuel is an upper bound on the
number of chunks (the list length always suffices). -/
def chunksFuel {α : Type} : Nat → List α → List (List α)
  | _, [] => []
  | 0, _ :: _ => []
  | fuel + 1, a :: l => ((a :: l).take 100) :: chunksFuel fuel ((a :: l).drop 100)

/-- The successive slices `l[i:i+100]` for `i in range(0, len(l), 100)`
(lines 93-94 and 141-142). -/
def chunks100 {α : Type} (l : List α) : List (List α) := chunksFuel l.length l

/-! ## Audio-feature enrichment (lines 88-98) -/

/-- Python truthiness of `t["track"].get("id")`: present and non-empty. -/
def truthyId : Option String → Bool
  | none => false
  | some s => decide (s ≠ "")

/-- Line 88: `[t["track"]["id"] for t in tracks if t.get("track") and
t["track"].get("id")]`. -/
def savedTrackIds (tracks : List SavedItem) : List String :=
  tracks.filterMap fun t =>
    match t.track with
    | some (some tr) => if truthyId tr.id then tr.id else none
    | _ => none

/-- Lines 96-98: insert one response entry into the features map, skipping
null entries and entries without a truthy id.  Insertion is modelled by
consing, with lookup taking the first hit, so later writes shadow earlier
ones exactly as Python dict assignment does. -/
def insertFeature (m : List (String × AudioFeatures)) :
    Option AudioFeatures → List (String × AudioFeatures)
  | none => m
  | some a =>
    match a.id with
    | none => m
    | some i => if i = "" then m else (i, a) :: m

/-- Lines 92-98: fold all chunked responses into the features map. -/
def buildFeaturesMap (responses : List (List (Option AudioFeatures))) :
    List (String × AudioFeatures) :=
  responses.foldl (fun m afs => afs.foldl insertFeature m) []

/-- The features map `filter_tracks` builds for a given track list, with the
audio-features endpoint abstracted as a function from an id chunk to its
response list. -/
def featuresMapFor (svc : List String → List (Option AudioFeatures))
    (tracks : List SavedItem) : List (String × AudioFeatures) :=
  buildFeaturesMap ((chunks100 (savedTrackIds tracks)).map svc)

/-- Line 113: `features_map.get(track.get("id"))` (a `None` key is never in
the map, since only truthy ids are inserted). -/
def fmGet (m : List (String × AudioFeatures)) : Option String → Option AudioFeatures
  | none => none
  | some i => List.lookup i m

/-! ## The matching predicate (lines 104-132) -/

/-- Line 104: the lowercased track name. -/
def trackNameText (t : Track) : String := normalize_text t.name

/-- Lines 105-106: the lowercased comma-joined artist names. -/
def trackArtistsText (t : Track) : String :=
  normalize_text (some (pyJoin ", " ((t.artists.getD []).map Artist.name)))

/-- Line 107: the lowercased album name. -/
def trackAlbumText (t : Track) : String :=
  normalize_text (t.album.bind Album.name)

/-- Line 109: `(keyword in name) or (keyword in artists) or (keyword in album)`,
for an already-normalized keyword. -/
def keywordMatch (kw : String) (t : Track) : Bool :=
  pyIn kw (trackNameText t) || pyIn kw (trackArtistsText t) || pyIn kw (trackAlbumText t)

/-- Lines 123-124 and 127-130: one `x is not None and v is not None and v < x`
guard. -/
def violLow : Option Rat → Option Rat → Bool
  | some bound, some v => decide (v < bound)
  | _, _ => false

/-- Lines 125-126: `max_bpm is not None and bpm is not None and bpm > max_bpm`. -/
def violHigh : Option Rat → Option Rat → Bool
  | some bound, some v => decide (bound < v)
  | _, _ => false

/-- Lines 119-130: a track with feature data survives every supplied and
applicable bound (the `continue` chain, negated). -/
def passesBounds (minB maxB minD minV : Option Rat) (af : AudioFeatures) : Bool :=
  !violLow minB af.tempo && !violHigh maxB af.tempo &&
    !violLow minD af.danceability && !violLow minV af.valence

/-- Lines 113-117: a matching track with no feature data is kept; otherwise
the bounds decide. -/
def featOk (fmap : List (String × AudioFeatures)) (minB maxB minD minV : Option Rat)
    (t : Track) : Bool :=
  match fmGet fmap t.id with
  | none => true
  | some af => passesBounds minB maxB minD minV af

/-- Whether lines 109-132 append `track` to `filtered`. -/
def includeTrack (kw : String) (fmap : List (String × AudioFeatures))
    (minB maxB minD minV : Option Rat) (t : Track) : Bool :=
  keywordMatch kw t && featOk fmap minB maxB minD minV t

/-- Lines 100-132: the main loop.  `Except.error ()` is the `KeyError`
raised by `item["track"]` on an item without that key; a null track is
skipped by `if not track: continue`. -/
def filterLoop (kw : String) (fmap : List (String × AudioFeatures))
    (minB maxB minD minV : Option Rat) : List SavedItem → Except Unit (List Track)
  | [] => Except.ok []
  | item :: rest =>
    match item.track with
    | none => Except.error ()
    | some none => filterLoop kw fmap minB maxB minD minV rest
    | some (some track) =>
      match filterLoop kw fmap minB maxB minD minV rest with
      | Except.error e => Except.error e
      | Except.ok r =>
        if includeTrack kw fmap minB maxB minD minV track then Except.ok (track :: r)
        else Except.ok r

/-- Lines 80-134: `filter_tracks`, with the audio-features endpoint
(`sp.audio_features`) abstracted as `svc`. -/
def filter_tracks (svc : List String → List (Option AudioFeatures))
    (tracks : List SavedItem) (keyword : String)
    (min_bpm max_bpm min_dance min_valence : Option Rat) : Except Unit (List Track) :=
  let kw := normalize_text (some keyword)
  if kw = "" then Except.ok []
  else filterLoop kw (featuresMapFor svc tracks) min_bpm max_bpm min_dance min_valence tracks

/-- The track carried by a saved item, when the key is present and non-null. -/
def itemTrack (item : SavedItem) : Option Track :=
  match item.track with
  | some (some t) => some t
  | _ => none

/-- The tracks of a fetched item list, in input order. -/
def tracksOf (tracks : List SavedItem) : List Track := tracks.filterMap itemTrack

/-! ## Paginator (lines 59-73, `fetch_all_saved_tracks`) -/

/-- Lines 66-72: the `while True` loop, with the paged endpoint abstracted
as `getPage limit offset` and the (possibly non-terminating) loop run on
explicit fuel.  Each pass requests `limit = 50` items at the current
offset, stops on an empty page, otherwise extends the accumulator and
advances the offset by 50. -/
def fetchLoopAux {α : Type} (getPage : Nat → Nat → List α) :
    Nat → Nat → List α → List α
  | 0, _, acc => acc
  | fuel + 1, offset, acc =>
    let items := getPage 50 offset
    if items.isEmpty then acc
    else fetchLoopAux getPage fuel (offset + 50) (acc ++ items)

/-- Lines 59-73: `fetch_all_saved_tracks` (page size 50, offset starting
at 0, empty accumulator). -/
def fetch_all_saved_tracks {α : Type} (getPage : Nat → Nat → List α)
    (fuel : Nat) : List α :=
  fetchLoopAux getPage fuel 0 []

/-- A fake paged source with pages of sizes 50, 50, 23, 0: the slice of
`0..122` starting at the offset. -/
def fakePages (_limit offset : Nat) : List Nat :=
  ((List.range 123).drop offset).take 50

/-! ## Playlist builder (lines 137-143, `create_playlist_and_add_tracks`) -/

/-- The response of `user_playlist_create` (line 138), as far as the code
reads it: `playlist["id"]` and the returned dictionary. -/
structure Playlist where
  id : String
  name : String
deriving DecidableEq

/-- One remote call issued by the playlist builder. -/
inductive SpotifyCall where
  | createPlaylist (user pname : String) (isPublic : Bool)
  | addItems (playlistId : String) (uris : List String)
deriving DecidableEq

/-- Lines 137-143 as the sequence of remote calls they issue (with the
create response abstracted as `createResp`): first the single
`user_playlist_create` request, then one `playlist_add_items` request per
100-chunk of `track_uris`, in order; the created playlist dictionary is
returned. -/
def create_playlist_and_add_tracks (createResp : Playlist)
    (user_id playlist_name : String) (track_uris : List String) (pub : Bool) :
    List SpotifyCall × Playlist :=
  (SpotifyCall.createPlaylist user_id playlist_name pub ::
      (chunks100 track_uris).map (SpotifyCall.addItems createResp.id),
   createResp)

/-- Execution of the append loop (lines 141-142) against a client for which
the call with index `k` (0-based, when `failAt = some k`) raises: returns
the uris actually added to the playlist and whether the loop completed. -/
def appendRun (failAt : Option Nat) : Nat → List (List String) → List String × Bool
  | _, [] => ([], true)
  | i, c :: cs =>
    if failAt = some i then ([], false)
    else
      let rest := appendRun failAt (i + 1) cs
      (c ++ rest.1, rest.2)

/-- Lines 137-143 executed against a client whose append call `failAt` (if
any) raises: the playlist contents after the run, and either the returned
playlist dictionary or the escaped exception.  The exception value is `()`:
the code has no handler and the error that propagates carries no playlist
id and no appended count. -/
def runBuild (createResp : Playlist) (failAt : Option Nat)
    (_user_id _playlist_name : String) (track_uris : List String) (_pub : Bool) :
    List String × Except Unit Playlist :=
  let r := appendRun failAt 0 (chunks100 track_uris)
  (r.1, if r.2 then Except.ok createResp else Except.error ())

/-! ## Genre filter variant -/

/-- Genre-filter match mode, from the spec (ANY vs ALL). -/
inductive GenreMode where
  | anyOf
  | allOf
deriving DecidableEq

/-- A track together with its aggregated genre tags. -/
structure GenreTrack where
  gid : String
  genres : List String
deriving DecidableEq

/-- Modelled from the spec: the repository has no genre-filter code in
`src/streamlit_app.py`; this follows spec section 4.3, genre variant: a
track with an empty genre set is excluded unconditionally; under ANY the
track's genre set must intersect `selectedGenres`, under ALL
`selectedGenres` must be a subset of the track's genre set; genre
comparison is case-insensitive.  Input order is preserved. -/
def genre_filter (tracks : List GenreTrack) (selectedGenres : List String)
    (mode : GenreMode) : List GenreTrack :=
  tracks.filter fun t =>
    let tg := t.genres.map pyLower
    let sg := selectedGenres.map pyLower
    !t.genres.isEmpty &&
      match mode with
      | GenreMode.anyOf => tg.any fun g => sg.contains g
      | GenreMode.allOf => sg.all fun g => tg.contains g

/-! ## Sample inputs shared by the concrete witnesses -/

/-- A sample saved track. -/
def sTrack1 : Track :=
  { id := some "t1", name := some "Italian Song",
    artists := some [{ name := "Mina" }], album := some { name := some "Best Of" } }

/-- The sample track wrapped as a saved item. -/
def sItem1 : SavedItem := { track := some (some sTrack1) }

/-- An audio-features endpoint that withholds all data (every entry null). -/
def svcNull : List String → List (Option AudioFeatures) :=
  fun ids => ids.map fun _ => none

/-- An audio-features endpoint returning fixed features for every id. -/
def svcEcho : List String → List (Option AudioFeatures) :=
  fun ids => ids.map fun i =>
    some { id := some i, tempo := some 120, danceability := some (1/2), valence := none }

/-! ## Helper lemmas: strings -/

/-- Lowercasing keeps a string non-empty. -/
theorem pyLower_eq_empty_iff (s : String) : pyLower s = "" ↔ s = "" := by
  constructor
  · intro h
    have hd : s.data.map Char.toLower = [] := congrArg String.data h
    exact String.ext (List.map_eq_nil_iff.mp hd)
  · intro h; subst h; rfl

/-- The normalized keyword of a non-empty keyword is non-empty. -/
theorem normalize_text_ne_empty {keyword : String} (h : keyword ≠ "") :
    normalize_text (some keyword) ≠ "" := by
  simpa [normalize_text, pyLower_eq_empty_iff] using h

/-! ## Helper lemmas: the filter loop -/

/-- A successful run of the match loop returns exactly the input's tracks
that satisfy the inclusion predicate, in input order. -/
theorem filterLoop_ok_eq {kw : String} {fmap : List (String × AudioFeatures)}
    {b₁ b₂ b₃ b₄ : Option Rat} {items : List SavedItem} {l : List Track}
    (h : filterLoop kw fmap b₁ b₂ b₃ b₄ items = Except.ok l) :
    l = (tracksOf items).filter (includeTrack kw fmap b₁ b₂ b₃ b₄) := by
  induction items generalizing l with
  | nil =>
    simp only [filterLoop, Except.ok.injEq] at h
    simp [tracksOf, ← h]
  | cons item rest ih =>
    obtain ⟨otr⟩ := item
    match otr with
    | none => simp [filterLoop] at h
    | some none =>
      simp only [filterLoop] at h
      simpa [tracksOf, List.filterMap_cons, itemTrack] using ih h
    | some (some track) =>
      simp only [filterLoop] at h
      split at h
      · exact absurd h (by simp)
      next r hrest =>
        have hr := ih hrest
        by_cases hinc : includeTrack kw fmap b₁ b₂ b₃ b₄ track = true
        · rw [if_pos hinc] at h
          simp only [Except.ok.injEq] at h
          subst h
          simp [tracksOf, List.filterMap_cons, itemTrack, List.filter_cons, hinc, hr]
        · rw [if_neg hinc] at h
          simp only [Except.ok.injEq] at h
          subst h
          simp only [Bool.not_eq_true] at hinc
          simp [tracksOf, List.filterMap_cons, itemTrack, List.filter_cons, hinc, hr]

/-- The match loop raises as soon as some item lacks the track key. -/
theorem filterLoop_error_of_missing {kw : String} {fmap : List (String × AudioFeatures)}
    {b₁ b₂ b₃ b₄ : Option Rat} {items : List SavedItem}
    (h : ∃ item ∈ items, item.track = none) :
    filterLoop kw fmap b₁ b₂ b₃ b₄ items = Except.error () := by
  induction items with
  | nil => simp at h
  | cons item rest ih =>
    obtain ⟨otr⟩ := item
    match otr with
    | none => simp [filterLoop]
    | some none =>
      simp only [filterLoop]
      refine ih ?_
      rcases h with ⟨i, hi, hnone⟩
      rcases List.mem_cons.mp hi with rfl | hi
      · simp at hnone
      · exact ⟨i, hi, hnone⟩
    | some (some track) =>
      have hrec : filterLoop kw fmap b₁ b₂ b₃ b₄ rest = Except.error () := by
        refine ih ?_
        rcases h with ⟨i, hi, hnone⟩
        rcases List.mem_cons.mp hi with rfl | hi
        · simp at hnone
        · exact ⟨i, hi, hnone⟩
      simp only [filterLoop, hrec]

/-- The match loop returns normally on a list whose items all carry the
track key. -/
theorem filterLoop_ok_of_wellformed {kw : String} {fmap : List (String × AudioFeatures)}
    {b₁ b₂ b₃ b₄ : Option Rat} {items : List SavedItem}
    (h : ∀ item ∈ items, item.track ≠ none) :
    ∃ l, filterLoop kw fmap b₁ b₂ b₃ b₄ items = Except.ok l := by
  induction items with
  | nil => exact ⟨[], rfl⟩
  | cons item rest ih =>
    rcases ih (fun i hi => h i (List.mem_cons_of_mem _ hi)) with ⟨r, hr⟩
    obtain ⟨otr⟩ := item
    match otr with
    | none => exact absurd rfl (h ⟨none⟩ (List.mem_cons_self _ _))
    | some none => exact ⟨r, by simpa only [filterLoop] using hr⟩
    | some (some track) =>
      refine ⟨if includeTrack kw fmap b₁ b₂ b₃ b₄ track then track :: r else r, ?_⟩
      simp only [filterLoop, hr]
      by_cases hinc : includeTrack kw fmap b₁ b₂ b₃ b₄ track = true
      · simp [hinc]
      · simp [hinc]

/-- Inserting a null-track item anywhere leaves the match loop's outcome
unchanged. -/
theorem filterLoop_skips_null {kw : String} {fmap : List (String × AudioFeatures)}
    {b₁ b₂ b₃ b₄ : Option Rat} (xs ys : List SavedItem) :
    filterLoop kw fmap b₁ b₂ b₃ b₄ (xs ++ { track := some none } :: ys) =
      filterLoop kw fmap b₁ b₂ b₃ b₄ (xs ++ ys) := by
  induction xs with
  | nil => rw [List.nil_append, List.nil_append, filterLoop]
  | cons x xs ih =>
    obtain ⟨otr⟩ := x
    match otr with
    | none => simp [filterLoop]
    | some none => simpa only [List.cons_append, filterLoop] using ih
    | some (some track) => simp only [List.cons_append, filterLoop, List.append_eq, ih]

/-! ## Helper lemmas: chunking -/

/-- Chunking the empty list gives no chunks, whatever the fuel. -/
theorem chunksFuel_nil {α : Type} (fuel : Nat) : chunksFuel fuel ([] : List α) = [] := by
  cases fuel <;> rfl

/-- The worker ignores fuel beyond the chunk count. -/
theorem chunksFuel_congr {α : Type} (fuel₁ : Nat) :
    ∀ (fuel₂ : Nat) (l : List α), l.length ≤ fuel₁ → l.length ≤ fuel₂ →
      chunksFuel fuel₁ l = chunksFuel fuel₂ l := by
  induction fuel₁ with
  | zero =>
    intro fuel₂ l h₁ _
    have : l = [] := List.eq_nil_of_length_eq_zero (Nat.le_zero.mp h₁)
    subst this
    rw [chunksFuel_nil, chunksFuel_nil]
  | succ fuel₁ ih =>
    intro fuel₂ l h₁ h₂
    match l with
    | [] => rw [chunksFuel_nil, chunksFuel_nil]
    | a :: l =>
      match fuel₂ with
      | 0 => simp at h₂
      | fuel₂ + 1 =>
        rw [chunksFuel, chunksFuel]
        refine congrArg _ (ih fuel₂ _ ?_ ?_) <;>
          simp only [List.length_drop, List.length_cons] at * <;> omega

/-- Unfolding a non-empty chunking step. -/
theorem chunks100_cons {α : Type} (l : List α) (h : l ≠ []) :
    chunks100 l = l.take 100 :: chunks100 (l.drop 100) := by
  match l with
  | [] => exact absurd rfl h
  | a :: l =>
    rw [chunks100, chunks100]
    simp only [List.length_cons, chunksFuel]
    refine congrArg _ (chunksFuel_congr _ _ _ ?_ ?_) <;>
      simp only [List.length_drop, List.length_cons] <;> omega

/-- Concatenating the 100-chunks restores the list. -/
theorem chunks100_flatten {α : Type} (l : List α) : (chunks100 l).flatten = l := by
  have main : ∀ (fuel : Nat) (l : List α), l.length ≤ fuel →
      (chunksFuel fuel l).flatten = l := by
    intro fuel
    induction fuel with
    | zero =>
      intro l hl
      have : l = [] := List.eq_nil_of_length_eq_zero (Nat.le_zero.mp hl)
      subst this; rfl
    | succ fuel ih =>
      intro l hl
      match l with
      | [] => rfl
      | a :: l =>
        rw [chunksFuel, List.flatten_cons, ih]
        · exact List.take_append_drop _ _
        · simp only [List.length_drop, List.length_cons] at *; omega
  exact main _ l (Nat.le_refl _)

/-- Every 100-chunk holds at most 100 elements. -/
theorem chunks100_length_le {α : Type} (l : List α) :
    ∀ c ∈ chunks100 l, c.length ≤ 100 := by
  have main : ∀ (fuel : Nat) (l : List α) (c : List α), c ∈ chunksFuel fuel l →
      c.length ≤ 100 := by
    intro fuel
    induction fuel with
    | zero => intro l c hc; cases l <;> simp [chunksFuel] at hc
    | succ fuel ih =>
      intro l c hc
      match l with
      | [] => simp [chunksFuel_nil] at hc
      | a :: l =>
        rw [chunksFuel] at hc
        rcases List.mem_cons.mp hc with rfl | hc
        · simp only [List.length_take]; omega
        · exact ih _ _ hc
  exact fun c hc => main _ l c hc

/-- Ceiling-division step used by the chunk count. -/
theorem ceil_div_step (n : Nat) (h : 1 ≤ n) :
    (n - 100 + 99) / 100 + 1 = (n + 99) / 100 := by
  rcases le_or_lt n 100 with hle | hgt
  · have e1 : n - 100 = 0 := by omega
    have e2 : (n + 99) / 100 = 1 := Nat.div_eq_of_lt_le (by omega) (by omega)
    rw [e1, e2]
  · have e3 : n - 100 + 99 + 100 = n + 99 := by omega
    rw [← e3, Nat.add_div_right _ (by omega)]

/-- The chunk count is the ceiling of `length / 100`. -/
theorem chunks100_count {α : Type} (l : List α) :
    (chunks100 l).length = (l.length + 99) / 100 := by
  have main : ∀ (fuel : Nat) (l : List α), l.length ≤ fuel →
      (chunksFuel fuel l).length = (l.length + 99) / 100 := by
    intro fuel
    induction fuel with
    | zero =>
      intro l hl
      have : l = [] := List.eq_nil_of_length_eq_zero (Nat.le_zero.mp hl)
      subst this
      rw [chunksFuel_nil]
      norm_num
    | succ fuel ih =>
      intro l hl
      match l with
      | [] => rw [chunksFuel_nil]; norm_num
      | a :: l =>
        rw [chunksFuel, List.length_cons, ih]
        · rw [List.length_drop]
          exact ceil_div_step _ (by simp)
        · simp only [List.length_drop, List.length_cons] at *; omega
  exact main _ l (Nat.le_refl _)

/-- A 150-element list splits into exactly two chunks, the second being the
last 50 elements. -/
theorem chunks100_of_length_150 {α : Type} (l : List α) (hl : l.length = 150) :
    chunks100 l = [l.take 100, l.drop 100] := by
  have h1 : l ≠ [] := by
    intro h; rw [h] at hl; simp at hl
  have h2 : l.drop 100 ≠ [] := by
    intro h
    have := congrArg List.length h
    rw [List.length_drop, hl] at this
    simp at this
  rw [chunks100_cons l h1, chunks100_cons _ h2]
  have h3 : (l.drop 100).take 100 = l.drop 100 :=
    List.take_of_length_le (by rw [List.length_drop, hl]; omega)
  have h4 : (l.drop 100).drop 100 = [] :=
    List.drop_eq_nil_of_le (by rw [List.length_drop, hl]; omega)
  rw [h3, h4]
  rfl

/-! ## Helper lemmas: paginator -/

/-- With the pages before index k non-empty and page k empty, the fetch
loop started at offset `j*50` returns the accumulator followed by pages
`j..k-1` in request order. -/
theorem fetchLoopAux_spec {α : Type} (getPage : Nat → Nat → List α) (k : Nat)
    (hne : ∀ i, i < k → getPage 50 (i * 50) ≠ [])
    (hend : getPage 50 (k * 50) = []) :
    ∀ (fuel j : Nat) (acc : List α), j ≤ k → k - j < fuel →
      fetchLoopAux getPage fuel (j * 50) acc =
        acc ++ ((List.range' j (k - j)).map fun i => getPage 50 (i * 50)).flatten := by
  intro fuel
  induction fuel with
  | zero => intro j acc _ hf; omega
  | succ fuel ih =>
    intro j acc hj hf
    by_cases hjk : j = k
    · subst hjk
      rw [fetchLoopAux]
      simp [hend]
    · have hlt : j < k := Nat.lt_of_le_of_ne hj hjk
      rw [fetchLoopAux]
      rw [if_neg (by simpa [List.isEmpty_iff] using hne j hlt)]
      have hoff : j * 50 + 50 = (j + 1) * 50 := by ring
      rw [hoff, ih (j + 1) _ hlt (by omega)]
      have hkj : k - j = (k - (j + 1)) + 1 := by omega
      rw [hkj, List.range'_succ]
      simp [List.append_assoc]

/-! ## Helper lemmas: the append loop -/

/-- When call `k` of the append loop fails, the playlist received exactly
the chunks before `k` and the loop did not complete. -/
theorem appendRun_fail (k : Nat) :
    ∀ (cs : List (List String)) (i : Nat), i ≤ k → k - i < cs.length →
      appendRun (some k) i cs = (((cs.take (k - i)).flatten), false) := by
  intro cs
  induction cs with
  | nil => intro i _ hf; simp at hf
  | cons c cs ih =>
    intro i hi hf
    by_cases hik : k = i
    · subst hik
      rw [appendRun]
      simp
    · have h1 : i + 1 ≤ k := by omega
      rw [appendRun, if_neg (by simpa using hik)]
      rw [ih (i + 1) h1 (by simp only [List.length_cons] at hf; omega)]
      have h2 : k - i = (k - (i + 1)) + 1 := by omega
      rw [h2, List.take_succ_cons, List.flatten_cons]

/-! ## Helper lemmas: the features map -/

/-- Every binding of the features map after one chunk's fold comes from a
non-null response entry with that (truthy) id, or was already present. -/
theorem foldl_insertFeature_lookup (afs : List (Option AudioFeatures)) :
    ∀ (m : List (String × AudioFeatures)) (i : String) (af : AudioFeatures),
      List.lookup i (afs.foldl insertFeature m) = some af →
      (some af ∈ afs ∧ af.id = some i ∧ i ≠ "") ∨ List.lookup i m = some af := by
  induction afs with
  | nil => intro m i af h; exact Or.inr h
  | cons a afs ih =>
    intro m i af h
    rw [List.foldl_cons] at h
    rcases ih _ _ _ h with hmem | hm
    · exact Or.inl ⟨List.mem_cons_of_mem _ hmem.1, hmem.2⟩
    · match a with
      | none => exact Or.inr hm
      | some b =>
        match hbid : b.id with
        | none => simp only [insertFeature, hbid] at hm; exact Or.inr hm
        | some j =>
          simp only [insertFeature, hbid] at hm
          by_cases hj : j = ""
          · rw [if_pos hj] at hm; exact Or.inr hm
          · rw [if_neg hj] at hm
            rw [List.lookup_cons] at hm
            by_cases hij : (i == j) = true
            · simp only [hij, Option.some.injEq] at hm
              subst hm
              refine Or.inl ⟨List.mem_cons_self _ _, ?_, ?_⟩
              · rw [hbid, beq_iff_eq.mp hij]
              · intro hi
                exact hj (by rw [← beq_iff_eq.mp hij, hi])
            · have hij2 : (i == j) = false := by simpa using hij
              simp only [hij2] at hm
              exact Or.inr hm

/-- Every binding of the full features map comes from a non-null entry,
with a truthy id, of one of the chunked responses: a null or missing entry
contributes nothing and raises nothing. -/
theorem buildFeaturesMap_lookup (responses : List (List (Option AudioFeatures)))
    (i : String) (af : AudioFeatures)
    (h : List.lookup i (buildFeaturesMap responses) = some af) :
    ∃ chunk ∈ responses, some af ∈ chunk ∧ af.id = some i ∧ i ≠ "" := by
  have main : ∀ (rs : List (List (Option AudioFeatures)))
      (m : List (String × AudioFeatures)),
      List.lookup i (rs.foldl (fun m afs => afs.foldl insertFeature m) m) = some af →
      (∃ chunk ∈ rs, some af ∈ chunk ∧ af.id = some i ∧ i ≠ "") ∨
        List.lookup i m = some af := by
    intro rs
    induction rs with
    | nil => intro m hm; exact Or.inr hm
    | cons r rs ih =>
      intro m hm
      rw [List.foldl_cons] at hm
      rcases ih _ hm with ⟨chunk, hc, hrest⟩ | hm2
      · exact Or.inl ⟨chunk, List.mem_cons_of_mem _ hc, hrest⟩
      · rcases foldl_insertFeature_lookup r m i af hm2 with hfound | hold
        · exact Or.inl ⟨r, List.mem_cons_self _ _, hfound⟩
        · exact Or.inr hold
  rcases main responses [] h with hfound | hempty
  · exact hfound
  · simp [List.lookup] at hempty

/-! ## Helper lemma: membership in the filter output -/

/-- A track is in a successful filter output exactly when it is a track of
the input, matches the keyword, and passes the feature check. -/
theorem mem_filter_tracks_iff (svc : List String → List (Option AudioFeatures))
    (tracks : List SavedItem) (keyword : String) (b₁ b₂ b₃ b₄ : Option Rat)
    (out : List Track) (t : Track) (hkw : keyword ≠ "")
    (hok : filter_tracks svc tracks keyword b₁ b₂ b₃ b₄ = Except.ok out) :
    t ∈ out ↔
      t ∈ tracksOf tracks ∧
        keywordMatch (normalize_text (some keyword)) t = true ∧
        featOk (featuresMapFor svc tracks) b₁ b₂ b₃ b₄ t = true := by
  simp only [filter_tracks] at hok
  rw [if_neg (normalize_text_ne_empty hkw)] at hok
  rw [filterLoop_ok_eq hok]
  simp [List.mem_filter, includeTrack, Bool.and_eq_true, and_assoc]

/-! ## The claims -/

/-- C1: for every track list and every non-empty keyword, a track appears
in the (successfully returned) output of the keyword filter if and only if
it is a track of the input, the lowercased keyword is a substring of the
lowercased name or of the lowercased comma-joined artist names or of the
lowercased album name, and it passes the enforced numeric bounds
(vacuously when it has no feature data). -/
theorem C1_keyword_filter_membership (svc : List String → List (Option AudioFeatures))
    (tracks : List SavedItem) (keyword : String) (b₁ b₂ b₃ b₄ : Option Rat)
    (out : List Track) (t : Track) (hkw : keyword ≠ "")
    (hok : filter_tracks svc tracks keyword b₁ b₂ b₃ b₄ = Except.ok out) :
    t ∈ out ↔
      t ∈ tracksOf tracks ∧
        (pyIn (normalize_text (some keyword)) (trackNameText t) ||
          pyIn (normalize_text (some keyword)) (trackArtistsText t) ||
          pyIn (normalize_text (some keyword)) (trackAlbumText t)) = true ∧
        featOk (featuresMapFor svc tracks) b₁ b₂ b₃ b₄ t = true := by
  rw [mem_filter_tracks_iff svc tracks keyword b₁ b₂ b₃ b₄ out t hkw hok]
  rw [keywordMatch]

/-- Closed instance of C1: the sample track is kept for keyword "italian"
with data-withholding features endpoint, and the characterization holds. -/
theorem C1_keyword_filter_membership_witness :
    sTrack1 ∈ [sTrack1] ↔
      sTrack1 ∈ tracksOf [sItem1] ∧
        (pyIn (normalize_text (some "italian")) (trackNameText sTrack1) ||
          pyIn (normalize_text (some "italian")) (trackArtistsText sTrack1) ||
          pyIn (normalize_text (some "italian")) (trackAlbumText sTrack1)) = true ∧
        featOk (featuresMapFor svcNull [sItem1]) none none none none sTrack1 = true :=
  C1_keyword_filter_membership svcNull [sItem1] "italian" none none none none
    [sTrack1] sTrack1 (by decide) rfl

/-- C2: for every track list (non-empty ones included) and every bounds
choice, the empty keyword yields the empty list, not the input unchanged. -/
theorem C2_empty_keyword_yields_empty (svc : List String → List (Option AudioFeatures))
    (tracks : List SavedItem) (b₁ b₂ b₃ b₄ : Option Rat) :
    filter_tracks svc tracks "" b₁ b₂ b₃ b₄ = Except.ok [] := by
  simp only [filter_tracks]
  rw [if_pos (show normalize_text (some "") = "" from rfl)]

/-- A min-bound guard fires only when bound and value are both present. -/
theorem violLow_eq_false_iff (b v : Option Rat) :
    violLow b v = false ↔ ∀ m x, b = some m → v = some x → ¬x < m := by
  cases b <;> cases v <;> simp [violLow]

/-- A max-bound guard fires only when bound and value are both present. -/
theorem violHigh_eq_false_iff (b v : Option Rat) :
    violHigh b v = false ↔ ∀ m x, b = some m → v = some x → ¬m < x := by
  cases b <;> cases v <;> simp [violHigh]

/-- Surviving the bounds is exactly firing none of the four guards. -/
theorem passesBounds_eq_true_iff (b₁ b₂ b₃ b₄ : Option Rat) (af : AudioFeatures) :
    passesBounds b₁ b₂ b₃ b₄ af = true ↔
      violLow b₁ af.tempo = false ∧ violHigh b₂ af.tempo = false ∧
        violLow b₃ af.danceability = false ∧ violLow b₄ af.valence = false := by
  simp [passesBounds, Bool.and_eq_true, Bool.not_eq_true', and_assoc]

/-- C3: a keyword-matching track with no retrievable feature data is
included regardless of the numeric bounds; with feature data, membership is
decided by the bounds, and each bound is enforced only when both the bound
and the corresponding feature value are present, any enforced failure
excluding the track. -/
theorem C3_missing_feature_data_policy (svc : List String → List (Option AudioFeatures))
    (tracks : List SavedItem) (keyword : String) (b₁ b₂ b₃ b₄ : Option Rat)
    (out : List Track) (t : Track) (hkw : keyword ≠ "")
    (hok : filter_tracks svc tracks keyword b₁ b₂ b₃ b₄ = Except.ok out)
    (ht : t ∈ tracksOf tracks)
    (hmatch : keywordMatch (normalize_text (some keyword)) t = true) :
    (fmGet (featuresMapFor svc tracks) t.id = none → t ∈ out) ∧
      (∀ af, fmGet (featuresMapFor svc tracks) t.id = some af →
        (t ∈ out ↔ passesBounds b₁ b₂ b₃ b₄ af = true)) ∧
      (∀ af,
        passesBounds b₁ b₂ b₃ b₄ af = true ↔
          ((∀ m v, b₁ = some m → af.tempo = some v → ¬v < m) ∧
            (∀ m v, b₂ = some m → af.tempo = some v → ¬m < v) ∧
            (∀ m v, b₃ = some m → af.danceability = some v → ¬v < m) ∧
            (∀ m v, b₄ = some m → af.valence = some v → ¬v < m))) := by
  have hmem := mem_filter_tracks_iff svc tracks keyword b₁ b₂ b₃ b₄ out t hkw hok
  refine ⟨?_, ?_, ?_⟩
  · intro hfm
    exact hmem.mpr ⟨ht, hmatch, by simp [featOk, hfm]⟩
  · intro af hfm
    rw [hmem]
    simp [featOk, hfm, ht, hmatch]
  · intro af
    rw [passesBounds_eq_true_iff, violLow_eq_false_iff, violHigh_eq_false_iff,
      violLow_eq_false_iff, violLow_eq_false_iff]

/-- Closed instance of C3, at a features endpoint that does return data and
a min-tempo bound of 100. -/
theorem C3_missing_feature_data_policy_witness :
    (fmGet (featuresMapFor svcEcho [sItem1]) sTrack1.id = none → sTrack1 ∈ [sTrack1]) ∧
      (∀ af, fmGet (featuresMapFor svcEcho [sItem1]) sTrack1.id = some af →
        (sTrack1 ∈ [sTrack1] ↔ passesBounds (some 100) none none none af = true)) ∧
      (∀ af,
        passesBounds (some 100) none none none af = true ↔
          ((∀ m v, (some 100 : Option Rat) = some m → af.tempo = some v → ¬v < m) ∧
            (∀ m v, (none : Option Rat) = some m → af.tempo = some v → ¬m < v) ∧
            (∀ m v, (none : Option Rat) = some m → af.danceability = some v → ¬v < m) ∧
            (∀ m v, (none : Option Rat) = some m → af.valence = some v → ¬v < m))) :=
  C3_missing_feature_data_policy svcEcho [sItem1] "italian" (some 100) none none none
    [sTrack1] sTrack1 (by decide) rfl (by decide) (by decide)

/-- C4: a successful filter output is a sublist of the input's tracks: a
subset, order-preserving, with no duplication and no new elements. -/
theorem C4_output_is_order_preserving_subset (svc : List String → List (Option AudioFeatures))
    (tracks : List SavedItem) (keyword : String) (b₁ b₂ b₃ b₄ : Option Rat)
    (out : List Track)
    (hok : filter_tracks svc tracks keyword b₁ b₂ b₃ b₄ = Except.ok out) :
    out.Sublist (tracksOf tracks) := by
  simp only [filter_tracks] at hok
  by_cases h : normalize_text (some keyword) = ""
  · rw [if_pos h] at hok
    simp only [Except.ok.injEq] at hok
    rw [← hok]
    exact List.nil_sublist _
  · rw [if_neg h] at hok
    rw [filterLoop_ok_eq hok]
    exact List.filter_sublist _

/-- Closed instance of C4 at the sample input. -/
theorem C4_output_is_order_preserving_subset_witness :
    List.Sublist [sTrack1] (tracksOf [sItem1]) :=
  C4_output_is_order_preserving_subset svcNull [sItem1] "italian" none none none none
    [sTrack1] rfl

/-- C5: the playlist builder issues the create request first, then exactly
one append request per 100-chunk of the uris, sequentially in input order;
the appended chunks concatenate to the input uris exactly, each chunk holds
at most 100 uris, and 250 uris take exactly 3 append calls. -/
theorem C5_playlist_builder_calls (createResp : Playlist)
    (user_id playlist_name : String) (track_uris : List String) (pub : Bool) :
    (create_playlist_and_add_tracks createResp user_id playlist_name track_uris pub).1 =
        SpotifyCall.createPlaylist user_id playlist_name pub ::
          (chunks100 track_uris).map (SpotifyCall.addItems createResp.id) ∧
      (chunks100 track_uris).flatten = track_uris ∧
      (∀ c ∈ chunks100 track_uris, c.length ≤ 100) ∧
      (track_uris.length = 250 → (chunks100 track_uris).length = 3) ∧
      (create_playlist_and_add_tracks createResp user_id playlist_name track_uris pub).2 =
        createResp := by
  refine ⟨rfl, chunks100_flatten _, chunks100_length_le _, ?_, rfl⟩
  intro h250
  rw [chunks100_count, h250]

set_option maxRecDepth 8192 in
/-- C6: the paginator requests page N at offset `N*50` with fixed page size
50, stops at the first empty page, and returns the pages concatenated in
request order; on the fake source with page sizes 50, 50, 23, 0 it returns
exactly the 123 items in request order. -/
theorem C6_paginator_pages {α : Type} (getPage : Nat → Nat → List α) (k fuel : Nat)
    (hfuel : k < fuel)
    (hne : ∀ i, i < k → getPage 50 (i * 50) ≠ [])
    (hend : getPage 50 (k * 50) = []) :
    fetch_all_saved_tracks getPage fuel =
        ((List.range k).map fun i => getPage 50 (i * 50)).flatten ∧
      fetch_all_saved_tracks fakePages 10 = List.range 123 ∧
      (fetch_all_saved_tracks fakePages 10).length = 123 := by
  refine ⟨?_, by decide, by decide⟩
  have h := fetchLoopAux_spec getPage k hne hend fuel 0 [] (Nat.zero_le k) (by omega)
  simpa [fetch_all_saved_tracks, List.range_eq_range'] using h

set_option maxRecDepth 8192 in
/-- Closed instance of C6 at the fake source (3 non-empty pages, fuel 10). -/
theorem C6_paginator_pages_witness :
    fetch_all_saved_tracks fakePages 10 =
      ((List.range 3).map fun i => fakePages 50 (i * 50)).flatten :=
  (C6_paginator_pages fakePages 3 10 (by decide) (by decide) (by decide)).1

/-- C7: the enricher chunks the collected ids into `ceil(n/100)` lookup
calls of at most 100 ids each, covering the ids in order (150 ids make
exactly two calls, the second carrying the remaining 50); a null response
entry yields no binding in the features map (absent, never an error), and
the filter returns normally whatever the responses contain, provided every
item carries its track key. -/
theorem C7_batch_enricher (tracks : List SavedItem)
    (responses : List (List (Option AudioFeatures))) :
    (chunks100 (savedTrackIds tracks)).flatten = savedTrackIds tracks ∧
      (∀ c ∈ chunks100 (savedTrackIds tracks), c.length ≤ 100) ∧
      (chunks100 (savedTrackIds tracks)).length =
        ((savedTrackIds tracks).length + 99) / 100 ∧
      ((savedTrackIds tracks).length = 150 →
        chunks100 (savedTrackIds tracks) =
          [(savedTrackIds tracks).take 100, (savedTrackIds tracks).drop 100] ∧
        ((savedTrackIds tracks).drop 100).length = 50) ∧
      (∀ i af, List.lookup i (buildFeaturesMap responses) = some af →
        ∃ chunk ∈ responses, some af ∈ chunk ∧ af.id = some i ∧ i ≠ "") ∧
      (∀ svc keyword b₁ b₂ b₃ b₄, (∀ item ∈ tracks, item.track ≠ none) →
        ∃ out, filter_tracks svc tracks keyword b₁ b₂ b₃ b₄ = Except.ok out) := by
  refine ⟨chunks100_flatten _, chunks100_length_le _, chunks100_count _, ?_, ?_, ?_⟩
  · intro h150
    refine ⟨chunks100_of_length_150 _ h150, ?_⟩
    rw [List.length_drop, h150]
  · exact fun i af h => buildFeaturesMap_lookup responses i af h
  · intro svc keyword b₁ b₂ b₃ b₄ hwf
    simp only [filter_tracks]
    by_cases h : normalize_text (some keyword) = ""
    · rw [if_pos h]; exact ⟨[], rfl⟩
    · rw [if_neg h]; exact filterLoop_ok_of_wellformed hwf

/-- C8 (amended): when append call `k` fails, the playlist holds exactly
the uris of the chunks before `k` — the created playlist is not rolled
back — and the failure escapes as the client's raw exception. -/
theorem C8_append_failure_partial_state (createResp : Playlist)
    (user_id playlist_name : String) (track_uris : List String) (pub : Bool) (k : Nat)
    (hk : k < (chunks100 track_uris).length) :
    (runBuild createResp (some k) user_id playlist_name track_uris pub).1 =
        ((chunks100 track_uris).take k).flatten ∧
      (runBuild createResp (some k) user_id playlist_name track_uris pub).2 =
        Except.error () := by
  have h := appendRun_fail k (chunks100 track_uris) 0 (Nat.zero_le k) (by omega)
  simp only [Nat.sub_zero] at h
  exact ⟨by simp [runBuild, h], by simp [runBuild, h]⟩

set_option maxRecDepth 8192 in
/-- Closed instance of C8: failing the second of two append calls leaves
exactly the first 100-chunk in the playlist and an escaped exception. -/
theorem C8_append_failure_partial_state_witness :
    (runBuild { id := "pl1", name := "My" } (some 1) "user" "My"
        (List.replicate 150 "spotify:track:x") false).1 =
        ((chunks100 (List.replicate 150 "spotify:track:x")).take 1).flatten ∧
      (runBuild { id := "pl1", name := "My" } (some 1) "user" "My"
        (List.replicate 150 "spotify:track:x") false).2 = Except.error () :=
  C8_append_failure_partial_state { id := "pl1", name := "My" } "user" "My"
    (List.replicate 150 "spotify:track:x") false 1 (by decide)

set_option maxRecDepth 8192 in
/-- C8 counterexample: two failing runs that differ in the playlist id and
in the number of successfully appended tracks surface the very same error
value, so the surfaced error carries neither the playlist id nor the count
of appended tracks. -/
theorem C8_error_carries_no_state_counterexample :
    (runBuild { id := "pidA", name := "P" } (some 0) "u" "P"
        (List.replicate 150 "u") false).2 =
      (runBuild { id := "pidB", name := "P" } (some 1) "u" "P"
        (List.replicate 150 "u") false).2 ∧
      ({ id := "pidA", name := "P" } : Playlist) ≠ { id := "pidB", name := "P" } ∧
      (runBuild { id := "pidA", name := "P" } (some 0) "u" "P"
        (List.replicate 150 "u") false).1.length = 0 ∧
      (runBuild { id := "pidB", name := "P" } (some 1) "u" "P"
        (List.replicate 150 "u") false).1.length = 100 :=
  ⟨rfl, by decide, rfl, rfl⟩

/-- C9: the genre filter excludes every empty-genre track unconditionally;
under ANY it keeps exactly the tracks whose genre set intersects the
selection, under ALL exactly those whose genre set contains the whole
selection, case-insensitively, preserving input order and membership. -/
theorem C9_genre_filter_membership (tracks : List GenreTrack)
    (selectedGenres : List String) (mode : GenreMode) (t : GenreTrack) :
    t ∈ genre_filter tracks selectedGenres mode ↔
      t ∈ tracks ∧ t.genres ≠ [] ∧
        (match mode with
          | GenreMode.anyOf => ∃ g ∈ t.genres, pyLower g ∈ selectedGenres.map pyLower
          | GenreMode.allOf => ∀ g ∈ selectedGenres, pyLower g ∈ t.genres.map pyLower) := by
  cases mode <;>
    simp [genre_filter, List.mem_filter, List.any_eq_true, List.all_eq_true,
      List.isEmpty_iff, List.mem_map, and_assoc]

/-- C10 counterexample: an item whose track key is missing entirely makes
the keyword filter raise (the KeyError of `item["track"]`) instead of being
skipped. -/
theorem C10_missing_track_key_raises_counterexample :
    filter_tracks svcNull [{ track := none }] "a" none none none none =
      Except.error () := rfl

/-- C10 (amended): an item with a null track value is silently skipped —
it contributes nothing to the output or to the lookup ids, and the whole
call is unchanged by its presence — and an item with a missing track key
contributes no lookup ids either, but makes the filter raise for every
non-empty keyword. -/
theorem C10_null_track_items_skipped (svc : List String → List (Option AudioFeatures))
    (xs ys : List SavedItem) (keyword : String) (b₁ b₂ b₃ b₄ : Option Rat) :
    savedTrackIds (xs ++ { track := some none } :: ys) = savedTrackIds (xs ++ ys) ∧
      savedTrackIds (xs ++ { track := none } :: ys) = savedTrackIds (xs ++ ys) ∧
      filter_tracks svc (xs ++ { track := some none } :: ys) keyword b₁ b₂ b₃ b₄ =
        filter_tracks svc (xs ++ ys) keyword b₁ b₂ b₃ b₄ ∧
      (keyword ≠ "" →
        filter_tracks svc (xs ++ { track := none } :: ys) keyword b₁ b₂ b₃ b₄ =
          Except.error ()) := by
  have hids : savedTrackIds (xs ++ { track := some none } :: ys) =
      savedTrackIds (xs ++ ys) := by
    simp [savedTrackIds, List.filterMap_append, List.filterMap_cons]
  have hids2 : savedTrackIds (xs ++ { track := none } :: ys) =
      savedTrackIds (xs ++ ys) := by
    simp [savedTrackIds, List.filterMap_append, List.filterMap_cons]
  refine ⟨hids, hids2, ?_, ?_⟩
  · simp only [filter_tracks, featuresMapFor, hids]
    by_cases h : normalize_text (some keyword) = ""
    · rw [if_pos h, if_pos h]
    · rw [if_neg h, if_neg h]
      exact filterLoop_skips_null xs ys
  · intro hkw
    simp only [filter_tracks]
    rw [if_neg (normalize_text_ne_empty hkw)]
    exact filterLoop_error_of_missing ⟨{ track := none }, by simp, rfl⟩
